import Mathlib

/-!
Verification of the `raytracer-challenge-rs` repository.

The Rust sources are shallowly embedded: `f64` values become `ℚ` (the
fixture inputs and all constants the claims mention are exact binary
rationals, and no claim depends on rounding), `±∞` coordinates of
bounding boxes become an explicit extended-rational type, fallible or
panicking operations return `Option`, and `Vec` becomes `List`.
Square roots do not exist on `ℚ`, so functions whose branches need
`f64::sqrt` take an explicit `sq : ℚ → ℚ` oracle; every theorem proved
here is independent of the oracle's values.
-/

/-- `EPSILON` from `raytracer/src/lib.rs`. -/
def EPS : ℚ := 1 / 100000

/-- `equal` from `raytracer/src/lib.rs`: approximate f64 comparison,
`(a - b).abs() < EPSILON`. -/
def equalQ (a b : ℚ) : Prop := |a - b| < EPS

instance (a b : ℚ) : Decidable (equalQ a b) := by
  unfold equalQ; infer_instance

/-! ### CSG operations (`raytracer/src/geometry/shape/csg.rs`) -/

/-- The CSG `Operation` enum. -/
inductive Operation where
  | union
  | intersection
  | difference
deriving DecidableEq, Fintype

/-- `Operation::union_allowed`. -/
def Operation.union_allowed (lhit inl inr : Bool) : Bool :=
  (lhit && !inr) || (!lhit && !inl)

/-- `Operation::op_intersection_allowed`. -/
def Operation.op_intersection_allowed (lhit inl inr : Bool) : Bool :=
  (lhit && inr) || (!lhit && inl)

/-- `Operation::difference_allowed`. -/
def Operation.difference_allowed (lhit inl inr : Bool) : Bool :=
  (lhit && !inr) || (!lhit && inl)

/-- `Operation::intersection_allowed`: dispatch on the operation. -/
def Operation.intersection_allowed : Operation → Bool → Bool → Bool → Bool
  | .union, lhit, inl, inr => Operation.union_allowed lhit inl inr
  | .intersection, lhit, inl, inr => Operation.op_intersection_allowed lhit inl inr
  | .difference, lhit, inl, inr => Operation.difference_allowed lhit inl inr

/-- The spec's keep-rule table (§4.5), written from the spec's words:
union keeps iff (lhit and not inRight) or (not lhit and not inLeft);
intersection keeps iff (lhit and inRight) or (not lhit and inLeft);
difference keeps iff (lhit and not inRight) or (not lhit and inLeft). -/
def specCsgKeep : Operation → Bool → Bool → Bool → Bool
  | .union, lhit, inLeft, inRight => (lhit && !inRight) || (!lhit && !inLeft)
  | .intersection, lhit, inLeft, inRight => (lhit && inRight) || (!lhit && inLeft)
  | .difference, lhit, inLeft, inRight => (lhit && !inRight) || (!lhit && inLeft)

/-- C1: for every CSG operation and all 24 combinations of the booleans
`lhit`, `inLeft`, `inRight`, `Operation::intersection_allowed` returns
exactly the value of the spec's keep-rule table. -/
theorem csg_intersection_allowed_matches_spec_table :
    ∀ (op : Operation) (lhit inLeft inRight : Bool),
      op.intersection_allowed lhit inLeft inRight = specCsgKeep op lhit inLeft inRight := by
  decide

/-! ### Intersections (`raytracer/src/geometry/intersection.rs`)

A `&dyn Shape` compares by value of its `BaseShape` (transform plus
material); in every scene a claim touches, distinct shapes have distinct
bases, so a shape is modelled as an `Obj`: an identifier together with
the one material field the refraction logic reads. -/

/-- A shape, reduced to what the intersection logic observes. -/
structure Obj where
  id : Nat
  refractive_index : ℚ
deriving DecidableEq

/-- `Intersection`: a ray parameter `t`, the hit object, and the
optional `u`/`v` barycentric coordinates. Its derived `PartialEq`
compares all four fields. -/
structure Isect where
  t : ℚ
  object : Obj
  u : Option ℚ
  v : Option ℚ
deriving DecidableEq

/-- `Intersection::new`: `u` and `v` are `None`. -/
def Isect.new (t : ℚ) (object : Obj) : Isect :=
  Isect.mk t object none none

/-- `hit`: the first intersection with `t >= 0.0` in the given order. -/
def hit (xs : List Isect) : Option Isect :=
  xs.find? fun i => decide (0 ≤ i.t)

/-- The comparator passed to the sort in `intersections`:
`a.t.partial_cmp(&b.t)` on NaN-free values, i.e. order by `t`. -/
def tle (a b : Isect) : Prop := a.t ≤ b.t

instance : DecidableRel tle := fun a b => inferInstanceAs (Decidable (a.t ≤ b.t))

instance : IsTotal Isect tle :=
  ⟨fun a b => le_total a.t b.t⟩

instance : IsTrans Isect tle :=
  ⟨fun _ _ _ h h' => le_trans h h'⟩

/-- `intersections`: copies the slice and runs `sort_unstable_by` with
the `t` comparator. Rust's `sort_unstable_by` contract promises exactly
a sorted permutation of the input and explicitly does not promise
anything about the relative order of equal elements, so the call is
embedded as the relation it guarantees: `ys` is a possible return value
for input `xs` iff `ys` is a permutation of `xs` sorted by `t`. -/
def intersectionsRel (xs ys : List Isect) : Prop :=
  List.Perm xs ys ∧ List.Sorted tle ys

/-- One implementation satisfying the `sort_unstable_by` contract. -/
def intersectionsSorted (xs : List Isect) : List Isect :=
  List.insertionSort tle xs

theorem intersectionsSorted_spec (xs : List Isect) :
    intersectionsRel xs (intersectionsSorted xs) :=
  ⟨(List.perm_insertionSort tle xs).symm, List.sorted_insertionSort tle xs⟩

theorem hit_first_min (ys : List Isect) (hs : List.Sorted tle ys) (i : Isect)
    (hy : hit ys = some i) : ∀ x ∈ ys, 0 ≤ x.t → i.t ≤ x.t := by
  induction ys with
  | nil => simp [hit] at hy
  | cons y ys ih =>
    rw [hit, List.find?_cons] at hy
    rcases hx : (decide (0 ≤ y.t)) with _ | _
    · rw [hx] at hy
      intro x hmem hxt
      rcases List.mem_cons.mp hmem with rfl | hmem
      · simp at hx; exact absurd hxt (by exact not_le.mpr hx)
      · exact ih (List.Sorted.of_cons hs) hy x hmem hxt
    · rw [hx] at hy
      injection hy with hy
      subst hy
      intro x hmem hxt
      rcases List.mem_cons.mp hmem with rfl | hmem
      · exact le_refl _
      · exact (List.sorted_cons.mp hs).1 x hmem

/-- C2: for any list of intersections and any output `ys` the sort may
produce, `hit ys` is `none` exactly when every input `t` is negative,
and otherwise returns an input intersection whose `t` is non-negative
and minimal among the non-negative input `t`s. -/
theorem hit_of_intersections_is_min_nonneg (xs ys : List Isect)
    (hrel : intersectionsRel xs ys) :
    ((hit ys = none) ↔ ∀ x ∈ xs, x.t < 0)
      ∧ ∀ i, hit ys = some i →
          0 ≤ i.t ∧ i ∈ xs ∧ ∀ x ∈ xs, 0 ≤ x.t → i.t ≤ x.t := by
  obtain ⟨hperm, hsort⟩ := hrel
  constructor
  · rw [hit, List.find?_eq_none]
    constructor
    · intro h x hx
      have := h x (hperm.mem_iff.mp hx)
      simpa using this
    · intro h x hx
      have := h x (hperm.mem_iff.mpr hx)
      simpa using this
  · intro i hi
    refine ⟨?_, ?_, ?_⟩
    · have := List.find?_some hi
      simpa using this
    · exact hperm.mem_iff.mpr (List.mem_of_find?_eq_some hi)
    · intro x hx hxt
      exact hit_first_min ys hsort i hi x (hperm.mem_iff.mp hx) hxt

/-- Witness for C2 at a concrete input: `xs = [t = -1, t = 2]`. -/
theorem hit_of_intersections_is_min_nonneg_witness :
    0 ≤ (Isect.new 2 (Obj.mk 0 1)).t
      ∧ Isect.new 2 (Obj.mk 0 1) ∈ [Isect.new (-1) (Obj.mk 0 1), Isect.new 2 (Obj.mk 0 1)]
      ∧ ∀ x ∈ [Isect.new (-1) (Obj.mk 0 1), Isect.new 2 (Obj.mk 0 1)],
          0 ≤ x.t → (Isect.new 2 (Obj.mk 0 1)).t ≤ x.t :=
  (hit_of_intersections_is_min_nonneg
      [Isect.new (-1) (Obj.mk 0 1), Isect.new 2 (Obj.mk 0 1)]
      [Isect.new (-1) (Obj.mk 0 1), Isect.new 2 (Obj.mk 0 1)]
      ⟨List.Perm.refl _, by simp [List.Sorted, tle, Isect.new]; norm_num⟩).2
    (Isect.new 2 (Obj.mk 0 1)) (by simp [hit, Isect.new, List.find?]; rfl)

/-! ### Stability of the sort in `intersections` (C7) -/

/-- The spec's stability property: any two intersections with equal `t`
appear in the output in the same relative order as in the input. The
pair `[a, b]` occurring as a (not necessarily contiguous) subsequence
of `xs` expresses "`a` before `b`". -/
def keepsEqualTOrder (xs ys : List Isect) : Prop :=
  ∀ a b : Isect, a.t = b.t → List.Sublist [a, b] xs → List.Sublist [a, b] ys

/-- C7 counterexample: the `sort_unstable_by` contract admits, for the
two equal-`t` input `[i0, i1]`, the output `[i1, i0]`, which reverses
the relative order of the equal-`t` pair; the code therefore does not
guarantee a stable sort. -/
theorem intersections_not_stable_cex :
    intersectionsRel [Isect.new 1 (Obj.mk 0 1), Isect.new 1 (Obj.mk 1 1)]
        [Isect.new 1 (Obj.mk 1 1), Isect.new 1 (Obj.mk 0 1)]
      ∧ ¬ keepsEqualTOrder [Isect.new 1 (Obj.mk 0 1), Isect.new 1 (Obj.mk 1 1)]
          [Isect.new 1 (Obj.mk 1 1), Isect.new 1 (Obj.mk 0 1)] := by
  constructor
  · exact ⟨List.Perm.swap _ _ _, by simp [List.Sorted, tle, Isect.new]⟩
  · intro h
    have hsub : List.Sublist [Isect.new 1 (Obj.mk 0 1), Isect.new 1 (Obj.mk 1 1)]
        [Isect.new 1 (Obj.mk 0 1), Isect.new 1 (Obj.mk 1 1)] := List.Sublist.refl _
    have := h (Isect.new 1 (Obj.mk 0 1)) (Isect.new 1 (Obj.mk 1 1)) rfl hsub
    simp [Isect.new, List.sublist_cons_iff] at this

/-- C7 amended: `intersections` returns a permutation of its input
sorted by `t` ascending (and such an output always exists); the
relative order of equal-`t` intersections is unspecified. -/
theorem intersections_sorted_permutation (xs : List Isect) :
    intersectionsRel xs (intersectionsSorted xs)
      ∧ ∀ ys, intersectionsRel xs ys → List.Perm ys xs ∧ List.Sorted tle ys := by
  refine ⟨intersectionsSorted_spec xs, ?_⟩
  intro ys hys
  exact ⟨hys.1.symm, hys.2⟩

/-- Witness for C7's amended theorem at a concrete input. -/
theorem intersections_sorted_permutation_witness :
    List.Perm [Isect.new 1 (Obj.mk 1 1), Isect.new 1 (Obj.mk 0 1)]
        [Isect.new 1 (Obj.mk 0 1), Isect.new 1 (Obj.mk 1 1)]
      ∧ List.Sorted tle [Isect.new 1 (Obj.mk 1 1), Isect.new 1 (Obj.mk 0 1)] :=
  (intersections_sorted_permutation [Isect.new 1 (Obj.mk 0 1), Isect.new 1 (Obj.mk 1 1)]).2
    [Isect.new 1 (Obj.mk 1 1), Isect.new 1 (Obj.mk 0 1)]
    ⟨List.Perm.swap _ _ _, by simp [List.Sorted, tle, Isect.new]⟩

/-! ### Refractive indices in `prepare_computations` (C4, C10)

`Intersection::prepare_computations` computes `n1`/`n2` by walking the
intersection list with a `containers` stack; this part of the function
(intersection.rs lines 63-90) is embedded below. The remaining fields
of `Computations` are pointwise geometry that no claim about `n1`/`n2`
reads, so they are not modelled here. -/

/-- `containers.contains(&i.object)`: linear scan by value equality. -/
def containsObj : List Obj → Obj → Bool
  | [], _ => false
  | c :: rest, o => if c = o then true else containsObj rest o

/-- `containers.iter().position(|&el| el == i.object)` followed by
`containers.remove(idx)`: remove the first occurrence. -/
def removeFirst : List Obj → Obj → List Obj
  | [], _ => []
  | c :: rest, o => if c = o then rest else c :: removeFirst rest o

/-- The `containers` loop of `prepare_computations`. For each entry:
if it equals `self`, `n1` becomes the refractive index of the innermost
container (or 1.0 if none); then the entry's object is removed from
`containers` if present (first occurrence) and appended otherwise; if
the entry equals `self`, `n2` is read the same way and the loop breaks. -/
def n1n2Loop (self : Isect) : List Isect → List Obj → ℚ → ℚ → ℚ × ℚ
  | [], _, n1, n2 => (n1, n2)
  | i :: rest, containers, n1, n2 =>
    let n1' := if i = self then
        (if containers.isEmpty then 1
          else (containers.getLastD (Obj.mk 0 0)).refractive_index)
      else n1
    let containers' := if containsObj containers i.object then removeFirst containers i.object
      else containers ++ [i.object]
    if i = self then
      (n1', if containers'.isEmpty then 1
        else (containers'.getLastD (Obj.mk 0 0)).refractive_index)
    else n1n2Loop self rest containers' n1' n2

/-- The `(n1, n2)` component of `prepare_computations(self, ray, xs)`:
the loop starts with an empty `containers` stack and the sentinel
initial values `n1 = n2 = -1.0`. -/
def prepareN1N2 (self : Isect) (xs : List Isect) : ℚ × ℚ :=
  n1n2Loop self xs [] (-1) (-1)

/-- Sphere A of the nested glass-spheres fixture: glass scaled by 2,
refractive index 1.5. -/
def sphA : Obj := Obj.mk 0 (3/2)

/-- Sphere B: glass translated to z = -0.25, refractive index 2.0. -/
def sphB : Obj := Obj.mk 1 2

/-- Sphere C: glass translated to z = 0.25, refractive index 2.5. -/
def sphC : Obj := Obj.mk 2 (5/2)

/-- The sorted intersection list of the fixture's ray
(origin (0,0,-4), direction (0,0,1)) with the three spheres. -/
def glassXs : List Isect :=
  [Isect.new 2 sphA, Isect.new (11/4) sphB, Isect.new (13/4) sphC,
    Isect.new (19/4) sphB, Isect.new (21/4) sphC, Isect.new 6 sphA]

/-- C4: in the nested glass-spheres fixture, `prepare_computations` on
the k-th intersection yields the six (n1, n2) pairs
(1, 1.5), (1.5, 2), (2, 2.5), (2.5, 2.5), (2.5, 1.5), (1.5, 1). -/
theorem glass_spheres_n1_n2 :
    glassXs.map (fun i => prepareN1N2 i glassXs)
      = [(1, 3/2), (3/2, 2), (2, 5/2), (5/2, 5/2), (5/2, 3/2), (3/2, 1)] := by
  norm_num [glassXs, prepareN1N2, n1n2Loop, sphA, sphB, sphC, Isect.new,
    List.getLastD, List.getLast, containsObj, removeFirst,
    Isect.mk.injEq, Obj.mk.injEq]

theorem n1n2Loop_no_self (self : Isect) :
    ∀ (xs : List Isect) (containers : List Obj) (n1 n2 : ℚ),
      (∀ i ∈ xs, ¬ i = self) → n1n2Loop self xs containers n1 n2 = (n1, n2) := by
  intro xs
  induction xs with
  | nil => intro c n1 n2 _; rfl
  | cons i rest ih =>
    intro c n1 n2 h
    have hne : ¬ i = self := h i (List.mem_cons_self _ _)
    simp only [n1n2Loop, if_neg hne]
    exact ih _ n1 n2 fun j hj => h j (List.mem_cons_of_mem _ hj)

/-- C10: when the target intersection is not an element of the supplied
list (in particular when the list is empty), `prepare_computations`
leaves `n1` and `n2` at the sentinel value -1.0. -/
theorem prepareN1N2_sentinel_outside (self : Isect) (xs : List Isect)
    (h : self ∉ xs) : prepareN1N2 self xs = (-1, -1) :=
  n1n2Loop_no_self self xs [] (-1) (-1) fun _ hi heq => h (heq ▸ hi)

/-- Witness for C10 at the empty intersection list. -/
theorem prepareN1N2_sentinel_outside_witness :
    prepareN1N2 (Isect.new 1 (Obj.mk 0 1)) [] = (-1, -1) :=
  prepareN1N2_sentinel_outside (Isect.new 1 (Obj.mk 0 1)) [] (by simp)

/-! ### Bounding boxes (`raytracer/src/bounding_box.rs`) (C5)

Box coordinates are `f64` values that include `±∞` (the default box is
`min = (+∞,+∞,+∞)`, `max = (-∞,-∞,-∞)`), so they are embedded as
rationals extended with two infinities. The comparisons below are the
IEEE-754 `<` and `<=` restricted to non-NaN values. -/

/-- An `f64` coordinate: a rational or one of the two infinities. -/
inductive XQ where
  | negInf
  | fin (q : ℚ)
  | posInf
deriving DecidableEq

/-- IEEE `<` on non-NaN values. -/
def XQ.lt : XQ → XQ → Bool
  | _, .negInf => false
  | .negInf, _ => true
  | .posInf, _ => false
  | _, .posInf => true
  | .fin a, .fin b => decide (a < b)

/-- IEEE `<=` on non-NaN values: `a <= b` iff not `b < a`. -/
def XQ.le (a b : XQ) : Bool := !(XQ.lt b a)

theorem XQ.lt_asymm {a b : XQ} (h : XQ.lt a b = true) : XQ.lt b a = false := by
  cases a <;> cases b <;> simp_all [XQ.lt]
  exact le_of_lt h

theorem XQ.le_refl (a : XQ) : XQ.le a a = true := by
  cases a <;> simp [XQ.le, XQ.lt]

theorem XQ.le_trans {a b c : XQ} (h1 : XQ.le a b = true) (h2 : XQ.le b c = true) :
    XQ.le a c = true := by
  cases a <;> cases b <;> cases c <;> simp_all [XQ.le, XQ.lt]
  linarith

/-- A point with possibly-infinite coordinates. -/
structure PointX where
  x : XQ
  y : XQ
  z : XQ
deriving DecidableEq

/-- `BoundingBox`. -/
structure BBox where
  min : PointX
  max : PointX
deriving DecidableEq

/-- `BoundingBox::default()`: the empty box with `min = +∞` and
`max = -∞` on every axis. -/
def BBox.default : BBox :=
  BBox.mk (PointX.mk .posInf .posInf .posInf) (PointX.mk .negInf .negInf .negInf)

/-- One `if point.c > self.max.c { self.max.c = point.c }` update. -/
def maxStep (m p : XQ) : XQ := if XQ.lt m p then p else m

/-- One `if point.c < self.min.c { self.min.c = point.c }` update. -/
def minStep (m p : XQ) : XQ := if XQ.lt p m then p else m

/-- `BoundingBox::add_point`. -/
def BBox.add_point (bb : BBox) (p : PointX) : BBox :=
  BBox.mk
    (PointX.mk (minStep bb.min.x p.x) (minStep bb.min.y p.y) (minStep bb.min.z p.z))
    (PointX.mk (maxStep bb.max.x p.x) (maxStep bb.max.y p.y) (maxStep bb.max.z p.z))

/-- `BoundingBox::add_bounding_box`: add the other box's two corners. -/
def BBox.add_bounding_box (bb other : BBox) : BBox :=
  (bb.add_point other.min).add_point other.max

/-- `BoundingBox::contains_point`: `min.c <= p.c <= max.c` on each axis. -/
def BBox.contains_point (bb : BBox) (p : PointX) : Bool :=
  (XQ.le bb.min.x p.x && XQ.le p.x bb.max.x)
    && (XQ.le bb.min.y p.y && XQ.le p.y bb.max.y)
    && (XQ.le bb.min.z p.z && XQ.le p.z bb.max.z)

/-- `BoundingBox::contains_bounding_box`. -/
def BBox.contains_bounding_box (bb other : BBox) : Bool :=
  bb.contains_point other.min && bb.contains_point other.max

/-- The unit box [0,1]^3. -/
def unitBBox : BBox :=
  BBox.mk (PointX.mk (.fin 0) (.fin 0) (.fin 0)) (PointX.mk (.fin 1) (.fin 1) (.fin 1))

/-- C5 counterexample: for `A` the default empty box and `B` the unit
box, `A.add_bounding_box(B)` equals `B` itself, and `B` does not
contain `A` (the corner `(+∞,+∞,+∞)` is not below `B.max`); so the
union does not contain `A`. -/
theorem bbox_union_not_contains_default_cex :
    (BBox.default.add_bounding_box unitBBox).contains_bounding_box BBox.default = false := by
  decide

theorem minStep_le_left (m p : XQ) : XQ.le (minStep m p) m = true := by
  unfold minStep
  rcases h : XQ.lt p m with _ | _
  · simp [XQ.le_refl]
  · simp [XQ.le, XQ.lt_asymm h]

theorem minStep_le_right (m p : XQ) : XQ.le (minStep m p) p = true := by
  unfold minStep
  rcases h : XQ.lt p m with _ | _
  · simp [XQ.le, h]
  · simp [XQ.le_refl]

theorem le_maxStep_left (m p : XQ) : XQ.le m (maxStep m p) = true := by
  unfold maxStep
  rcases h : XQ.lt m p with _ | _
  · simp [XQ.le_refl]
  · simp [XQ.le, XQ.lt_asymm h]

theorem le_maxStep_right (m p : XQ) : XQ.le p (maxStep m p) = true := by
  unfold maxStep
  rcases h : XQ.lt m p with _ | _
  · simp [XQ.le, h]
  · simp [XQ.le_refl]

theorem union_axis_bounds (amin amax b1 b2 : XQ) (h : XQ.le amin amax = true) :
    XQ.le (minStep (minStep amin b1) b2) amin = true
      ∧ XQ.le amin (maxStep (maxStep amax b1) b2) = true
      ∧ XQ.le amax (maxStep (maxStep amax b1) b2) = true
      ∧ XQ.le (minStep (minStep amin b1) b2) b1 = true
      ∧ XQ.le b1 (maxStep (maxStep amax b1) b2) = true
      ∧ XQ.le (minStep (minStep amin b1) b2) b2 = true
      ∧ XQ.le b2 (maxStep (maxStep amax b1) b2) = true := by
  have humin_amin : XQ.le (minStep (minStep amin b1) b2) amin = true :=
    XQ.le_trans (minStep_le_left _ _) (minStep_le_left _ _)
  have hamax_umax : XQ.le amax (maxStep (maxStep amax b1) b2) = true :=
    XQ.le_trans (le_maxStep_left _ _) (le_maxStep_left _ _)
  refine ⟨humin_amin, XQ.le_trans h hamax_umax, hamax_umax, ?_, ?_, ?_, ?_⟩
  · exact XQ.le_trans (minStep_le_left _ _) (minStep_le_right _ _)
  · exact XQ.le_trans (le_maxStep_right _ _) (le_maxStep_left _ _)
  · exact minStep_le_right _ _
  · exact le_maxStep_right _ _

/-- C5 amended: for every box `A` whose `min` is below its `max` on
each axis (every box describing a non-empty region; the default empty
box excluded) and every box `B` whatsoever (the default box included),
`A.add_bounding_box(B)` contains both `A` and `B`. -/
theorem bbox_union_contains_both (A B : BBox)
    (hx : XQ.le A.min.x A.max.x = true)
    (hy : XQ.le A.min.y A.max.y = true)
    (hz : XQ.le A.min.z A.max.z = true) :
    (A.add_bounding_box B).contains_bounding_box A = true
      ∧ (A.add_bounding_box B).contains_bounding_box B = true := by
  obtain ⟨ax1, ax2, ax3, ax4, ax5, ax6, ax7⟩ :=
    union_axis_bounds A.min.x A.max.x B.min.x B.max.x hx
  obtain ⟨ay1, ay2, ay3, ay4, ay5, ay6, ay7⟩ :=
    union_axis_bounds A.min.y A.max.y B.min.y B.max.y hy
  obtain ⟨az1, az2, az3, az4, az5, az6, az7⟩ :=
    union_axis_bounds A.min.z A.max.z B.min.z B.max.z hz
  have tx : XQ.le (minStep (minStep A.min.x B.min.x) B.max.x) A.max.x = true :=
    XQ.le_trans ax1 hx
  have ty : XQ.le (minStep (minStep A.min.y B.min.y) B.max.y) A.max.y = true :=
    XQ.le_trans ay1 hy
  have tz : XQ.le (minStep (minStep A.min.z B.min.z) B.max.z) A.max.z = true :=
    XQ.le_trans az1 hz
  simp only [BBox.add_bounding_box, BBox.add_point, BBox.contains_bounding_box,
    BBox.contains_point, Bool.and_eq_true]
  and_intros <;> assumption

/-- Witness for C5's amended theorem: `A` the unit box, `B` the default
empty box. -/
theorem bbox_union_contains_both_witness :
    (unitBBox.add_bounding_box BBox.default).contains_bounding_box unitBBox = true
      ∧ (unitBBox.add_bounding_box BBox.default).contains_bounding_box BBox.default = true :=
  bbox_union_contains_both unitBBox BBox.default (by decide) (by decide) (by decide)

/-! ### Cone intersection (`raytracer/src/geometry/shape/cone.rs`) (C6)

Only the ray parameters `t` are collected (every intersection a cone
pushes carries the cone itself as its object). The quadratic branch
needs `disc.sqrt()`, which does not exist on `ℚ`; it is supplied as an
oracle `sq`, and the degenerate branch the claim is about never
evaluates it. -/

/-- A vector or point in the cone's local space. -/
structure QV where
  x : ℚ
  y : ℚ
  z : ℚ
deriving DecidableEq

/-- A ray in local space. -/
structure RayQ where
  origin : QV
  direction : QV
deriving DecidableEq

/-- The `Cone` fields: its `f64` y-limits (infinite for the default
cone) and the `closed` flag. -/
structure ConeQ where
  minimum : XQ
  maximum : XQ
  closed : Bool

/-- `Cone::default()`: limits `-∞`/`+∞`, open. -/
def ConeQ.default : ConeQ := ConeQ.mk .negInf .posInf false

/-- One end-cap test of `Cone::intersect_caps` at the plane `y = m`,
for a finite limit `m`: `t = (m - origin.y) / direction.y`, kept when
`x² + z² <= m²` at that `t`. A ray with `direction.y = 0` produces `±∞`
or NaN in the f64 code and every subsequent comparison is false, so it
never yields a cap hit; an infinite limit never passes the `x² + z²`
test either. Both cases return `[]`. -/
def capHit (ray : RayQ) (bound : XQ) : List ℚ :=
  match bound with
  | .fin m =>
    if ray.direction.y = 0 then []
    else
      let t := (m - ray.origin.y) / ray.direction.y
      let x := ray.origin.x + t * ray.direction.x
      let z := ray.origin.z + t * ray.direction.z
      if x * x + z * z ≤ m * m then [t] else []
  | _ => []

/-- `Cone::intersect_caps`: nothing unless `closed`; otherwise the
minimum cap followed by the maximum cap. -/
def ConeQ.intersect_caps (cone : ConeQ) (ray : RayQ) : List ℚ :=
  if cone.closed then capHit ray cone.minimum ++ capHit ray cone.maximum else []

/-- The cone quadratic coefficient `a = dx² - dy² + dz²`. -/
def coneA (ray : RayQ) : ℚ :=
  ray.direction.x ^ 2 - ray.direction.y ^ 2 + ray.direction.z ^ 2

/-- The cone quadratic coefficient
`b = 2·ox·dx - 2·oy·dy + 2·oz·dz`. -/
def coneB (ray : RayQ) : ℚ :=
  2 * ray.origin.x * ray.direction.x - 2 * ray.origin.y * ray.direction.y
    + 2 * ray.origin.z * ray.direction.z

/-- The cone quadratic coefficient `c = ox² - oy² + oz²`. -/
def coneC (ray : RayQ) : ℚ :=
  ray.origin.x ^ 2 - ray.origin.y ^ 2 + ray.origin.z ^ 2

/-- `Cone::local_intersect`. The degenerate branch `|a| < EPSILON`,
`|b| >= EPSILON` pushes `t = -c / 2.0 * b`, which by Rust operator
precedence is `(-c / 2.0) * b`. -/
def ConeQ.local_intersect (sq : ℚ → ℚ) (cone : ConeQ) (ray : RayQ) : List ℚ :=
  let a := coneA ray
  let b := coneB ray
  let c := coneC ray
  if |a| < EPS then
    if |b| < EPS then cone.intersect_caps ray
    else (-c / 2 * b) :: cone.intersect_caps ray
  else
    let disc := b ^ 2 - 4 * a * c
    if disc < 0 then []
    else
      let t0 := (-b - sq disc) / (2 * a)
      let t1 := (-b + sq disc) / (2 * a)
      let y0 := ray.origin.y + t0 * ray.direction.y
      let w0 := if XQ.lt cone.minimum (.fin y0) && XQ.lt (.fin y0) cone.maximum
        then [t0] else []
      let y1 := ray.origin.y + t1 * ray.direction.y
      let w1 := if XQ.lt cone.minimum (.fin y1) && XQ.lt (.fin y1) cone.maximum
        then [t1] else []
      w0 ++ w1 ++ cone.intersect_caps ray

/-- The ray origin (0,0,-1), direction (0,1,1): for it `a = 0`,
`b = -2`, `c = 1`, so the degenerate linear branch runs with
`|b| >= EPSILON`. -/
def coneRayCex : RayQ := RayQ.mk (QV.mk 0 0 (-1)) (QV.mk 0 1 1)

/-- A concrete stand-in for `f64::sqrt` (never reached by the
degenerate branch). -/
def sqZero : ℚ → ℚ := fun _ => 0

/-- C6 counterexample: on the default cone and the ray origin (0,0,-1),
direction (0,1,1) (so `a = 0`, `b = -2`, `c = 1`), `local_intersect`
returns `[(-c / 2.0) * b] = [1]`, not the `[-c / (2·b)] = [1/4]` the
claim states. -/
theorem cone_degenerate_branch_cex :
    ConeQ.default.local_intersect sqZero coneRayCex = [1]
      ∧ -coneC coneRayCex / (2 * coneB coneRayCex) = 1 / 4
      ∧ ConeQ.default.local_intersect sqZero coneRayCex
          ≠ [-coneC coneRayCex / (2 * coneB coneRayCex)] := by
  have h : ConeQ.default.local_intersect sqZero coneRayCex = [1] := by
    norm_num [ConeQ.local_intersect, ConeQ.default, ConeQ.intersect_caps, coneRayCex,
      coneA, coneB, coneC, EPS]
  have hv : -coneC coneRayCex / (2 * coneB coneRayCex) = 1 / 4 := by
    norm_num [coneRayCex, coneB, coneC]
  refine ⟨h, hv, ?_⟩
  rw [h, hv]
  norm_num

/-- C6 amended: for every local-space ray whose quadratic coefficient
`a` satisfies `|a| < EPSILON` while `|b| >= EPSILON`, and for every
cone, `local_intersect` returns `t = (-c / 2.0) * b` (the value of the
source expression `-c / 2.0 * b` under Rust precedence) followed by any
end-cap intersections — not the root `-c / (2·b)` of the spec (nor the
root `-c / b` of the degenerate linear equation `b·t + c = 0`). -/
theorem cone_degenerate_branch_formula (sq : ℚ → ℚ) (cone : ConeQ) (ray : RayQ)
    (ha : |coneA ray| < EPS) (hb : ¬ |coneB ray| < EPS) :
    cone.local_intersect sq ray
      = (-coneC ray / 2 * coneB ray) :: cone.intersect_caps ray := by
  rw [ConeQ.local_intersect]
  simp only [if_pos ha, if_neg hb]

/-- Witness for C6's amended theorem at the counterexample ray. -/
theorem cone_degenerate_branch_formula_witness :
    ConeQ.default.local_intersect sqZero coneRayCex
      = (-coneC coneRayCex / 2 * coneB coneRayCex)
          :: ConeQ.default.intersect_caps coneRayCex :=
  cone_degenerate_branch_formula sqZero ConeQ.default coneRayCex
    (by norm_num [coneA, coneRayCex, EPS]) (by norm_num [coneB, coneRayCex, EPS])

/-! ### Material propagation on shape trees (C8)

`Shape::set_material` (geometry/mod.rs) sets only the shape's own
`BaseShape` material; `Group` overrides it to also recurse into its
children; `Csg` does not override it. A shape tree is modelled with its
material payload (opaque to `set_material`) as a rational. -/

mutual
/-- A shape tree: a primitive, a group with children, or a CSG node. -/
inductive ShapeT where
  | prim (material : ℚ)
  | group (material : ℚ) (children : ShapeList)
  | csg (material : ℚ) (op : Operation) (left : ShapeT) (right : ShapeT)

/-- Children of a group. -/
inductive ShapeList where
  | nil
  | cons (head : ShapeT) (tail : ShapeList)
end

mutual
/-- `set_material`: the trait default (used by primitives and by `Csg`)
replaces only the node's own material; the `Group` override also calls
`set_material` on every child. -/
def setMaterial : ShapeT → ℚ → ShapeT
  | .prim _, m => .prim m
  | .group _ cs, m => .group m (setMaterialList cs m)
  | .csg _ op l r, m => .csg m op l r

/-- `set_material` mapped over a group's children. -/
def setMaterialList : ShapeList → ℚ → ShapeList
  | .nil, _ => .nil
  | .cons s ss, m => .cons (setMaterial s m) (setMaterialList ss m)
end

mutual
/-- Every node of the tree carries material `m`. -/
def allMaterial : ShapeT → ℚ → Bool
  | .prim m', m => decide (m' = m)
  | .group m' cs, m => decide (m' = m) && allMaterialList cs m
  | .csg m' _ l r, m => decide (m' = m) && allMaterial l m && allMaterial r m

/-- Every node of every tree in the list carries material `m`. -/
def allMaterialList : ShapeList → ℚ → Bool
  | .nil, _ => true
  | .cons s ss, m => allMaterial s m && allMaterialList ss m
end

mutual
/-- The tree contains no CSG node. -/
def csgFree : ShapeT → Bool
  | .prim _ => true
  | .group _ cs => csgFreeList cs
  | .csg _ _ _ _ => false

/-- No tree in the list contains a CSG node. -/
def csgFreeList : ShapeList → Bool
  | .nil => true
  | .cons s ss => csgFree s && csgFreeList ss
end

/-- C8 counterexample: `set_material(1)` on a CSG of two primitives
with material 0 leaves both subtrees at material 0, so not every
descendant has the new material. -/
theorem csg_set_material_not_propagated_cex :
    allMaterial (setMaterial (ShapeT.csg 0 .union (.prim 0) (.prim 0)) 1) 1 = false := by
  norm_num [setMaterial, allMaterial]

mutual
theorem allMaterial_setMaterial :
    ∀ (s : ShapeT) (m : ℚ), csgFree s = true → allMaterial (setMaterial s m) m = true
  | .prim _, m, _ => by simp [setMaterial, allMaterial]
  | .group m' cs, m, h => by
    simp only [setMaterial, allMaterial, Bool.and_eq_true, decide_eq_true_eq]
    exact ⟨trivial, allMaterialList_setMaterialList cs m (by simpa [csgFree] using h)⟩
  | .csg _ op l r, m, h => by simp [csgFree] at h

theorem allMaterialList_setMaterialList :
    ∀ (ss : ShapeList) (m : ℚ), csgFreeList ss = true →
      allMaterialList (setMaterialList ss m) m = true
  | .nil, _, _ => rfl
  | .cons s ss, m, h => by
    simp only [csgFreeList, Bool.and_eq_true] at h
    simp only [setMaterialList, allMaterialList, Bool.and_eq_true]
    exact ⟨allMaterial_setMaterial s m h.1, allMaterialList_setMaterialList ss m h.2⟩
end

/-- C8 amended: `set_material` on a group propagates the material to
the group and, recursively, to all descendants, provided the tree
contains no CSG node; on a CSG node it replaces only that node's own
material and leaves both subtrees untouched. -/
theorem set_material_propagation (s : ShapeT) (m : ℚ) (h : csgFree s = true) :
    allMaterial (setMaterial s m) m = true
      ∧ ∀ (m0 : ℚ) (op : Operation) (l r : ShapeT),
          setMaterial (ShapeT.csg m0 op l r) m = ShapeT.csg m op l r :=
  ⟨allMaterial_setMaterial s m h, fun _ _ _ _ => rfl⟩

/-- Witness for C8's amended theorem: a group of one primitive. -/
theorem set_material_propagation_witness :
    allMaterial (setMaterial (ShapeT.group 0 (.cons (.prim 0) .nil)) 1) 1 = true :=
  (set_material_propagation (ShapeT.group 0 (.cons (.prim 0) .nil)) 1 rfl).1

/-! ### Render options (`raytracer/src/camera.rs`) (C9) -/

/-- The anti-aliasing sample counts. -/
inductive AASamples where
  | x1
  | x2
  | x4
  | x8
  | x16
deriving DecidableEq

/-- `RenderOpts`. -/
structure RenderOpts where
  num_threads : Nat
  aa_samples : AASamples
deriving DecidableEq

/-- `RenderOpts::default()`: one thread, one sample. -/
def RenderOpts.default : RenderOpts := RenderOpts.mk 1 .x1

/-- `RenderOpts::num_threads(n)`: `assert!(n > 0)` then store `n`. The
assertion failure is a panic, modelled as `none`; on success the
updated options are returned. -/
def RenderOpts.set_num_threads (opts : RenderOpts) (n : Nat) : Option RenderOpts :=
  if 0 < n then some (RenderOpts.mk n opts.aa_samples) else none

/-- C9: configuring zero worker threads fails the assertion (panics, so
no state with a changed thread count is ever observable), while any
`n > 0` sets the thread count to `n` and leaves the other options
unchanged. -/
theorem num_threads_asserts_positive (opts : RenderOpts) (n : Nat) (h : 0 < n) :
    opts.set_num_threads 0 = none
      ∧ opts.set_num_threads n = some (RenderOpts.mk n opts.aa_samples) := by
  constructor
  · rfl
  · simp [RenderOpts.set_num_threads, h]

/-- Witness for C9 at `n = 4` on the default options. -/
theorem num_threads_asserts_positive_witness :
    RenderOpts.default.set_num_threads 0 = none
      ∧ RenderOpts.default.set_num_threads 4
          = some (RenderOpts.mk 4 RenderOpts.default.aa_samples) :=
  num_threads_asserts_positive RenderOpts.default 4 (by decide)

/-! ### Shading recursion (`raytracer/src/world.rs`) (C3)

`color_at`, `shade_hit`, `reflected_color` and `refracted_color` are
mutually recursive through the `remaining` depth counter. The scene
content is irrelevant to the recursion structure, so a world is its
intersection pipeline: `intersect` (the per-shape geometry),
`prepComps` (the geometric fields of `prepare_computations`) and
`lighting` (the summed per-light surface term) are oracle fields, while
`hit`, the Schlick approximation and the recursion itself are embedded
from the source. -/

/-- A color. -/
structure Color where
  r : ℚ
  g : ℚ
  b : ℚ
deriving DecidableEq

/-- `Color::black()`. -/
def Color.black : Color := Color.mk 0 0 0

/-- Componentwise color addition. -/
def Color.add (c d : Color) : Color := Color.mk (c.r + d.r) (c.g + d.g) (c.b + d.b)

/-- `Color * f64` scaling. -/
def Color.scale (c : Color) (k : ℚ) : Color := Color.mk (c.r * k) (c.g * k) (c.b * k)

/-- Vector dot product. -/
def dotQ (a b : QV) : ℚ := a.x * b.x + a.y * b.y + a.z * b.z

/-- Vector scaling. -/
def QV.scale (v : QV) (k : ℚ) : QV := QV.mk (v.x * k) (v.y * k) (v.z * k)

/-- Vector subtraction. -/
def QV.sub (a b : QV) : QV := QV.mk (a.x - b.x) (a.y - b.y) (a.z - b.z)

/-- The two material coefficients the shading recursion reads. -/
structure MaterialM where
  reflective : ℚ
  transparency : ℚ
deriving DecidableEq

/-- The fields of `Computations` the shading recursion reads. -/
structure CompsM where
  material : MaterialM
  overPoint : QV
  underPoint : QV
  eyev : QV
  normalv : QV
  reflectv : QV
  n1 : ℚ
  n2 : ℚ

/-- `Computations::schlick`. -/
def schlick (sq : ℚ → ℚ) (comps : CompsM) : ℚ :=
  let cos := dotQ comps.eyev comps.normalv
  let n := comps.n1 / comps.n2
  let sin2_t := n * n * (1 - cos * cos)
  if comps.n1 > comps.n2 ∧ sin2_t > 1 then 1
  else
    let cos2 := if comps.n1 > comps.n2 then sq (1 - sin2_t) else cos
    let r0 := ((comps.n1 - comps.n2) / (comps.n1 + comps.n2)) ^ 2
    r0 + (1 - r0) * (1 - cos2) ^ 5

/-- `sin2_t` of `refracted_color`: `(n1/n2)² · (1 - cos_i²)`. -/
def sin2T (comps : CompsM) : ℚ :=
  let nr := comps.n1 / comps.n2
  let cos_i := dotQ comps.eyev comps.normalv
  nr * nr * (1 - cos_i * cos_i)

/-- The refraction direction of `refracted_color`. -/
def refractDir (sq : ℚ → ℚ) (comps : CompsM) : QV :=
  let nr := comps.n1 / comps.n2
  let cos_i := dotQ comps.eyev comps.normalv
  let cos_t := sq (1 - sin2T comps)
  QV.sub (QV.scale comps.normalv (nr * cos_i - cos_t)) (QV.scale comps.eyev nr)

/-- A `World`, reduced to its intersection pipeline. -/
structure WorldM where
  intersect : RayQ → List Isect
  prepComps : Isect → RayQ → List Isect → CompsM
  lighting : CompsM → Color
  sq : ℚ → ℚ

/-- `World::reflected_color`, with the recursive `color_at` call at
depth `remaining - 1` supplied as `recur`: black when
`equal(reflective, 0.0)` or `remaining == 0`; otherwise recurse along
the reflection ray and scale by the reflective coefficient. -/
def reflected_color_aux (recur : RayQ → Color) (comps : CompsM) (remaining : Nat) : Color :=
  if equalQ comps.material.reflective 0 then Color.black
  else
    match remaining with
    | 0 => Color.black
    | _ + 1 =>
      Color.scale (recur (RayQ.mk comps.overPoint comps.reflectv))
        comps.material.reflective

/-- `World::refracted_color`, with the recursive `color_at` call at
depth `remaining - 1` supplied as `recur`: black when
`equal(transparency, 0.0)` or `remaining == 0` or under total internal
reflection (`sin2_t > 1.0`); otherwise recurse along the refraction ray
and scale by the transparency. -/
def refracted_color_aux (sq : ℚ → ℚ) (recur : RayQ → Color) (comps : CompsM)
    (remaining : Nat) : Color :=
  if equalQ comps.material.transparency 0 then Color.black
  else
    match remaining with
    | 0 => Color.black
    | _ + 1 =>
      if sin2T comps > 1 then Color.black
      else
        Color.scale (recur (RayQ.mk comps.underPoint (refractDir sq comps)))
          comps.material.transparency

/-- `World::shade_hit` with the recursive call supplied as `recur`:
surface plus reflected plus refracted, blended by Schlick reflectance
when the material is both reflective and transparent. -/
def shade_hit_aux (w : WorldM) (recur : RayQ → Color) (comps : CompsM)
    (remaining : Nat) : Color :=
  let surface := w.lighting comps
  let reflected := reflected_color_aux recur comps remaining
  let refracted := refracted_color_aux w.sq recur comps remaining
  if comps.material.reflective > 0 ∧ comps.material.transparency > 0 then
    let reflectance := schlick w.sq comps
    Color.add surface
      (Color.add (Color.scale reflected reflectance)
        (Color.scale refracted (1 - reflectance)))
  else
    Color.add surface (Color.add reflected refracted)

/-- `World::color_at` by structural recursion on the depth counter:
intersect, take the hit, shade it (black when the ray hits nothing);
the shading at depth `r + 1` recurses into `color_at` at depth `r`, and
at depth 0 the guards in `reflected_color`/`refracted_color` make the
recursive call unreachable (a nominal constant-black continuation is
passed there). -/
def colorAtAux (w : WorldM) : Nat → RayQ → Color
  | 0, ray =>
    match hit (w.intersect ray) with
    | none => Color.black
    | some h => shade_hit_aux w (fun _ => Color.black) (w.prepComps h ray (w.intersect ray)) 0
  | r + 1, ray =>
    match hit (w.intersect ray) with
    | none => Color.black
    | some h => shade_hit_aux w (colorAtAux w r) (w.prepComps h ray (w.intersect ray)) (r + 1)

/-- `World::color_at` in the source's argument order. -/
def color_at (w : WorldM) (ray : RayQ) (remaining : Nat) : Color :=
  colorAtAux w remaining ray

/-- `World::shade_hit`. -/
def shade_hit (w : WorldM) (comps : CompsM) (remaining : Nat) : Color :=
  shade_hit_aux w (fun ray2 => color_at w ray2 (remaining - 1)) comps remaining

/-- `World::reflected_color`. -/
def reflected_color (w : WorldM) (comps : CompsM) (remaining : Nat) : Color :=
  reflected_color_aux (fun ray2 => color_at w ray2 (remaining - 1)) comps remaining

/-- `World::refracted_color`. -/
def refracted_color (w : WorldM) (comps : CompsM) (remaining : Nat) : Color :=
  refracted_color_aux w.sq (fun ray2 => color_at w ray2 (remaining - 1)) comps remaining

/-- C3: `reflected_color` is black at depth 0 and whenever the
reflective coefficient is 0; `refracted_color` is black at depth 0 and
whenever the transparency is 0; every recursive call into `color_at`
passes `remaining - 1`; and `color_at` is a total function of every
finite depth. -/
theorem color_at_recursion_guards (w : WorldM) (comps : CompsM) (ray : RayQ) (r : Nat) :
    reflected_color w comps 0 = Color.black
      ∧ refracted_color w comps 0 = Color.black
      ∧ (comps.material.reflective = 0 → reflected_color w comps r = Color.black)
      ∧ (comps.material.transparency = 0 → refracted_color w comps r = Color.black)
      ∧ (∀ r' : Nat, ¬ equalQ comps.material.reflective 0 →
          reflected_color w comps (r' + 1)
            = Color.scale (color_at w (RayQ.mk comps.overPoint comps.reflectv) r')
                comps.material.reflective)
      ∧ (∀ r' : Nat, ¬ equalQ comps.material.transparency 0 → ¬ sin2T comps > 1 →
          refracted_color w comps (r' + 1)
            = Color.scale
                (color_at w (RayQ.mk comps.underPoint (refractDir w.sq comps)) r')
                comps.material.transparency)
      ∧ ∃ c : Color, color_at w ray r = c := by
  refine ⟨?_, ?_, ?_, ?_, ?_, ?_, ⟨_, rfl⟩⟩
  · rw [reflected_color, reflected_color_aux]; split <;> rfl
  · rw [refracted_color, refracted_color_aux]; split <;> rfl
  · intro h0
    have he : equalQ comps.material.reflective 0 := by
      rw [h0]; unfold equalQ EPS; norm_num
    rw [reflected_color, reflected_color_aux.eq_def, if_pos he]
  · intro h0
    have he : equalQ comps.material.transparency 0 := by
      rw [h0]; unfold equalQ EPS; norm_num
    rw [refracted_color, refracted_color_aux.eq_def, if_pos he]
  · intro r' hne
    rw [reflected_color, reflected_color_aux, if_neg hne]
    norm_num
  · intro r' hne hsin
    rw [refracted_color, refracted_color_aux, if_neg hne]
    simp only [if_neg hsin]
    norm_num

/-- Computations with both coefficients 0, for the C3 witness. -/
def compsEx : CompsM :=
  CompsM.mk (MaterialM.mk 0 0) (QV.mk 0 0 0) (QV.mk 0 0 0) (QV.mk 0 0 0)
    (QV.mk 0 0 0) (QV.mk 0 0 0) 1 1

/-- A trivial world for the C3 witness. -/
def worldEx : WorldM :=
  WorldM.mk (fun _ => []) (fun _ _ _ => compsEx) (fun _ => Color.black) (fun _ => 0)

/-- Witness for C3: at reflective coefficient 0 the reflected color at
depth 5 is black. -/
theorem color_at_recursion_guards_witness :
    reflected_color worldEx compsEx 5 = Color.black :=
  (color_at_recursion_guards worldEx compsEx (RayQ.mk (QV.mk 0 0 0) (QV.mk 0 0 0)) 5).2.2.1 rfl
